import Mathlib

/-!
Verification development for `hexagondisasm/reil/behavior_parser.py`: a
shallow embedding of its lexer, grammar actions and parser for Hexagon
instruction-behavior strings, together with the `HexagonTranslationBuilder`
accumulator, followed by theorems about the embedded program.

External BARF helpers that the file calls but whose source is not part of the
repository (`VariableNamer`, `TranslationBuilder.temporal`, `gen_str`,
`gen_add`, the `_instructions` list of `TranslationBuilder`) are modelled from
the specification and carry a `Modelled from the spec:` note.

The debug logging (`print_debug`) performed by the semantic actions is pure
output and is not modelled; the specification places logging out of scope.
-/

/-- REIL opcodes emitted by the translator.  Modelled from the spec: the
opcode set covers STORE (`str`, assign the source into the destination) and
ADD (`add`, binary combine). -/
inductive ReilMnemonic where
  | add
  | str
deriving DecidableEq

/-- REIL operands as imported by the source: `ReilRegisterOperand` (a name
and a bit width) and `ReilImmediateOperand` (a value and a bit width). -/
inductive ReilOperand where
  | register (name : String) (size : Nat)
  | immediate (value : Nat) (size : Nat)
deriving DecidableEq

/-- Bit width carried by an operand. -/
def ReilOperand.size : ReilOperand → Nat
  | .register _ s => s
  | .immediate _ s => s

mutual
/-- Values stored in a builder's `_value` slot.  Python is dynamically typed
and `set_value` receives either a REIL operand (in `p_register_reg` and
`p_expression_binop`) or a whole `HexagonTranslationBuilder`
(`p_statementassign` line 296 stores `p[1]` itself, not `p[1].get_value()`),
so the model is a sum; `builderVal` is a builder snapshot (its
`_instructions` list and its `_value`). -/
inductive RValue where
  | operand (op : ReilOperand)
  | builderVal (instructions : List ReilInstruction) (value : Option RValue)

/-- A REIL instruction: opcode, source operands, destination.  Modelled from
the spec: fixed-shape instructions, an opcode plus up to three typed
operands.  The operand slots hold `RValue` because the Python call sites pass
`get_value()` results straight through. -/
inductive ReilInstruction where
  | mk (opcode : ReilMnemonic) (sources : List RValue) (dst : RValue)
end

/-- Opcode of an instruction. -/
def ReilInstruction.opcodeOf : ReilInstruction → ReilMnemonic
  | .mk op _ _ => op

/-- Tokens the lexer of `HexagonBehaviorParser` can actually produce.  Token
names follow the source's token list; kinds that are declared there but have
no lexer rule (`NAME`, `MOD`, `MODEQUAL`, `IF`, `ELSE`, ...) can never be
produced and are omitted.  `REG` carries the matched lexeme, `IMM` the
already-normalized integer value. -/
inductive Token where
  | REG (value : String)
  | IMM (value : Nat)
  | MEM_ACCESS
  | REG_EA
  | PLUS | MINUS | TIMES | DIVIDE | OR | AND | NOT | XOR | LOG_NOT
  | LSHIFT | RSHIFT | LT | GT | LE | GE | EQ | NE
  | EQUALS | TIMESEQUAL | DIVEQUAL | PLUSEQUAL | MINUSEQUAL
  | LSHIFTEQUAL | RSHIFTEQUAL | ANDEQUAL | OREQUAL | XOREQUAL
  | PLUSPLUS | MINUSMINUS | CONDOP
  | LPAREN | RPAREN | LBRACE | RBRACE
  | COMMA | PERIOD | SEMI | COLON
deriving DecidableEq

/-- Errors raised by the module: `UnknownBehaviorException` is raised with an
"Illegal character" message by `t_error` and with a "Syntax error" message by
`p_error` (at a token, or at EOF when the token is `None`);
`UnexpectedException` is raised by `get_value`.  `outOfFuel` is an artifact
of the embedding's explicit recursion bounds; the bounds used by `lexAll` and
`parse` are large enough that it is never reached. -/
inductive HexagonError where
  | illegalCharacter (c : Char) (remaining : String)
  | syntaxErrorAt (tok : Token)
  | syntaxErrorAtEOF
  | unexpectedException
  | outOfFuel
deriving DecidableEq

/-- Fixed operand width used throughout the translator (`hexagon_size = 32`). -/
def hexagon_size : Nat := 32

/-- Modelled from the spec: the temporary allocator behind the global
`_ir_name_generator` (BARF `VariableNamer` with base name `"t"` and empty
separator) issues monotonically numbered fresh names `t0`, `t1`, ...; its
counter state is threaded explicitly through the embedding. -/
def ir_name_generator_get_next (counter : Nat) : String × Nat :=
  ("t" ++ toString counter, counter + 1)

/-- Modelled from the spec: `TranslationBuilder.temporal` allocates a fresh
temporary register operand of the given width from the name generator. -/
def temporal (counter size : Nat) : ReilOperand × Nat :=
  let (name, counter') := ir_name_generator_get_next counter
  (.register name size, counter')

/-- Modelled from the spec: `_builder.gen_str src dst` builds the STORE
instruction moving `src` into `dst`. -/
def gen_str (src dst : RValue) : ReilInstruction := .mk .str [src] dst

/-- Modelled from the spec: `_builder.gen_add a b dst` builds the ADD
instruction combining `a` and `b` into `dst`. -/
def gen_add (a b dst : RValue) : ReilInstruction := .mk .add [a, b] dst

/-- The translation accumulator: BARF's `TranslationBuilder` as specialised
by `HexagonTranslationBuilder` — an ordered instruction list plus the
optional current value. -/
structure HexagonTranslationBuilder where
  instructions : List ReilInstruction
  value : Option RValue

/-- Construction (`__init__`): the `_instructions` list starts empty
(modelled from the spec: builders start with an empty instruction list) and
`_value` starts unset (`None`).  The name-generator argument of the Python
constructor is shared global state and lives outside the builder in this
embedding. -/
def HexagonTranslationBuilder.init : HexagonTranslationBuilder := ⟨[], none⟩

/-- Accessor `get_instructions` (also read directly as `parsed._instructions`
by the `__main__` driver). -/
def HexagonTranslationBuilder.get_instructions
    (tb : HexagonTranslationBuilder) : List ReilInstruction :=
  tb.instructions

/-- `add`: append a single instruction (modelled from the spec: append-only
ordered list). -/
def HexagonTranslationBuilder.add (tb : HexagonTranslationBuilder)
    (i : ReilInstruction) : HexagonTranslationBuilder :=
  { tb with instructions := tb.instructions ++ [i] }

/-- `extend_instructions`: extend this builder's instruction list with the
other builder's list, in order. -/
def HexagonTranslationBuilder.extend_instructions
    (tb other : HexagonTranslationBuilder) : HexagonTranslationBuilder :=
  { tb with instructions := tb.instructions ++ other.instructions }

/-- `set_value`: overwrite the current value. -/
def HexagonTranslationBuilder.set_value (tb : HexagonTranslationBuilder)
    (v : RValue) : HexagonTranslationBuilder :=
  { tb with value := some v }

/-- `get_value`: raise `UnexpectedException` when `_value` is `None`,
otherwise return the value. -/
def HexagonTranslationBuilder.get_value
    (tb : HexagonTranslationBuilder) : Except HexagonError RValue :=
  match tb.value with
  | none => .error .unexpectedException
  | some v => .ok v

/-- Snapshot of a builder as a stored value (what `set_value(p[1])` stores in
`p_statementassign`). -/
def HexagonTranslationBuilder.toRValue
    (tb : HexagonTranslationBuilder) : RValue :=
  .builderVal tb.instructions tb.value

/-! ## Lexer

PLY matches at the current position by trying the function rules in
definition order (`t_newline`, `t_MEM_ACCESS`, `t_REG_EA`, `t_REG`, `t_IMM`)
and then the string rules sorted by decreasing pattern length; characters in
`t_ignore` (space, tab, form feed) and newlines are skipped.  A character
matched by no rule raises through `t_error`, whose token value is the whole
remaining input. -/

/-- Python `\w` on ASCII input: letters, digits and underscore. -/
def isWordChar (c : Char) : Bool := c.isAlphanum || c == '_'

/-- A hexadecimal digit as accepted by `t_IMM`'s character class. -/
def isHexChar (c : Char) : Bool :=
  c.isDigit || ('a' ≤ c && c ≤ 'f') || ('A' ≤ c && c ≤ 'F')

/-- Value of one hexadecimal digit. -/
def hexCharVal (c : Char) : Nat :=
  if c.isDigit then c.toNat - '0'.toNat
  else if 'a' ≤ c && c ≤ 'f' then c.toNat - 'a'.toNat + 10
  else c.toNat - 'A'.toNat + 10

/-- Python `int(s, 16)` on a nonempty string of hexadecimal digits. -/
def hexValue (ds : List Char) : Nat :=
  ds.foldl (fun a c => a * 16 + hexCharVal c) 0

/-- First character class of `t_REG`'s pattern `[RPNMC]\w{1,2}(\.new)?`. -/
def isRegStart (c : Char) : Bool :=
  c == 'R' || c == 'P' || c == 'N' || c == 'M' || c == 'C'

/-- Match one token at the current position: `c` is the current character and
`rest` the characters after it.  Mirrors PLY's rule order; every success
consumes `c` and a prefix of `rest`.  On failure it raises `t_error`'s
"Illegal character" exception, whose payload is the offending character and
the whole remaining input. -/
def matchTokenAt (c : Char) (rest : List Char) :
    Except HexagonError (Token × List Char) :=
  if c == '*' && rest.take 2 == ['E', 'A'] then
    .ok (.MEM_ACCESS, rest.drop 2)
  else if c == 'E' && rest.take 1 == ['A'] then
    .ok (.REG_EA, rest.drop 1)
  else if isRegStart c && isWordChar (rest.headD ' ') then
    let w := min 2 (rest.takeWhile isWordChar).length
    let rest2 := rest.drop w
    if rest2.take 4 == ['.', 'n', 'e', 'w'] then
      .ok (.REG (String.mk (c :: rest.take w ++ ['.', 'n', 'e', 'w'])), rest2.drop 4)
    else
      .ok (.REG (String.mk (c :: rest.take w)), rest2)
  else if isHexChar c then
    if c == '0' && rest.take 1 == ['x'] && isHexChar ((rest.drop 1).headD ' ') then
      let ds := (rest.drop 1).takeWhile isHexChar
      .ok (.IMM (hexValue ds), (rest.drop 1).drop ds.length)
    else
      let ds := rest.takeWhile isHexChar
      .ok (.IMM (hexValue (c :: ds)), rest.drop ds.length)
  else if c == '+' then
    if rest.take 1 == ['+'] then .ok (.PLUSPLUS, rest.drop 1)
    else if rest.take 1 == ['='] then .ok (.PLUSEQUAL, rest.drop 1)
    else .ok (.PLUS, rest)
  else if c == '-' then
    if rest.take 1 == ['-'] then .ok (.MINUSMINUS, rest.drop 1)
    else if rest.take 1 == ['='] then .ok (.MINUSEQUAL, rest.drop 1)
    else .ok (.MINUS, rest)
  else if c == '*' then
    if rest.take 1 == ['='] then .ok (.TIMESEQUAL, rest.drop 1)
    else .ok (.TIMES, rest)
  else if c == '/' then
    if rest.take 1 == ['='] then .ok (.DIVEQUAL, rest.drop 1)
    else .ok (.DIVIDE, rest)
  else if c == '|' then
    if rest.take 1 == ['='] then .ok (.OREQUAL, rest.drop 1)
    else .ok (.OR, rest)
  else if c == '&' then
    if rest.take 1 == ['='] then .ok (.ANDEQUAL, rest.drop 1)
    else .ok (.AND, rest)
  else if c == '^' then
    if rest.take 1 == ['='] then .ok (.XOREQUAL, rest.drop 1)
    else .ok (.XOR, rest)
  else if c == '!' then
    if rest.take 1 == ['='] then .ok (.NE, rest.drop 1)
    else .ok (.NOT, rest)
  else if c == '~' then .ok (.LOG_NOT, rest)
  else if c == '<' then
    if rest.take 2 == ['<', '='] then .ok (.LSHIFTEQUAL, rest.drop 2)
    else if rest.take 1 == ['<'] then .ok (.LSHIFT, rest.drop 1)
    else if rest.take 1 == ['='] then .ok (.LE, rest.drop 1)
    else .ok (.LT, rest)
  else if c == '>' then
    if rest.take 2 == ['>', '='] then .ok (.RSHIFTEQUAL, rest.drop 2)
    else if rest.take 1 == ['>'] then .ok (.RSHIFT, rest.drop 1)
    else if rest.take 1 == ['='] then .ok (.GE, rest.drop 1)
    else .ok (.GT, rest)
  else if c == '=' then
    if rest.take 1 == ['='] then .ok (.EQ, rest.drop 1)
    else .ok (.EQUALS, rest)
  else if c == '?' then .ok (.CONDOP, rest)
  else if c == '(' then .ok (.LPAREN, rest)
  else if c == ')' then .ok (.RPAREN, rest)
  else if c == '\x7b' then .ok (.LBRACE, rest)
  else if c == '\x7d' then .ok (.RBRACE, rest)
  else if c == ',' then .ok (.COMMA, rest)
  else if c == '.' then .ok (.PERIOD, rest)
  else if c == ';' then .ok (.SEMI, rest)
  else if c == ':' then .ok (.COLON, rest)
  else .error (.illegalCharacter c (String.mk (c :: rest)))

/-- Run the lexer over the whole input, producing the tokens before the first
failure and, when lexing fails, the pending error.  The parser below consumes
this stream lazily, which reproduces PLY's on-demand lexing: the pending
error only surfaces when the parser actually requests the failing token.
`fuel` bounds the recursion; each step consumes at least one character. -/
def lexGo : Nat → List Char → List Token × Option HexagonError
  | _, [] => ([], none)
  | 0, _ :: _ => ([], some .outOfFuel)
  | fuel + 1, c :: rest =>
    if c == ' ' || c == '\t' || c == '\x0c' || c == '\n' then lexGo fuel rest
    else
      match matchTokenAt c rest with
      | .error e => ([], some e)
      | .ok (t, rest') =>
        let (ts, p) := lexGo fuel rest'
        (t :: ts, p)

/-- Tokenize a full character list. -/
def lexAll (cs : List Char) : List Token × Option HexagonError :=
  lexGo cs.length cs

/-! ## Grammar actions

One function per `p_...` rule of `HexagonBehaviorParser` that has a semantic
action beyond passing its argument through. -/

/-- Action of `p_register_reg` (`register : REG`): a fresh builder whose
current value is a register operand named after the token lexeme, of width
`hexagon_size`; no instructions are emitted. -/
def p_register_reg (name : String) : HexagonTranslationBuilder :=
  HexagonTranslationBuilder.init.set_value (.operand (.register name hexagon_size))

/-- Action of `p_statementassign` (`statement_assign : register <assign-op>
expression`): evaluate `p[3].get_value()` then `p[1].get_value()` (Python
evaluates the `gen_str` arguments left to right), append the STORE to the
expression's instruction list, then store `p[1]` — the register's builder
object itself, not its operand — as the result's current value. -/
def p_statementassign (r e : HexagonTranslationBuilder) :
    Except HexagonError HexagonTranslationBuilder :=
  match e.get_value with
  | .error err => .error err
  | .ok ev =>
    match r.get_value with
    | .error err => .error err
    | .ok rv => .ok ((e.add (gen_str ev rv)).set_value r.toRValue)

/-- Action of `p_expression_binop` (`expression : expression <binop>
expression`): extend the left list with the right list, allocate one fresh
temporary of width `hexagon_size`, emit a single ADD combining the two
current values into it, and make the temporary the current value.  The
operator token `op` (`p[2]`) is accepted but never consulted, exactly as in
the source. -/
def p_expression_binop (op : Token) (e1 e3 : HexagonTranslationBuilder)
    (counter : Nat) :
    Except HexagonError (HexagonTranslationBuilder × Nat) :=
  let e1x := e1.extend_instructions e3
  let (binop_dst, counter') := temporal counter hexagon_size
  match e1x.get_value with
  | .error err => .error err
  | .ok v1 =>
    match e3.get_value with
    | .error err => .error err
    | .ok v3 =>
      .ok (((e1x.add (gen_add v1 v3 (.operand binop_dst))).set_value
              (.operand binop_dst)), counter')

/-! ## Parser

The grammar (start symbol `statement`) is ambiguous; PLY resolves every
shift/reduce conflict in favour of shifting, which makes binary-operator
chains and semicolon chains associate to the right.  The recursive-descent
functions below reproduce that resolution: an expression's right operand
greedily swallows the rest of the operator chain, and a statement list is
folded with `extend_instructions` (list append is associative and
`extend_instructions` leaves the left value untouched, so the left fold used
here produces the same builder as PLY's right-nested reductions). -/

/-- The ten assignment-family operator tokens of `p_statementassign`. -/
def Token.isAssignOp : Token → Bool
  | .EQUALS | .TIMESEQUAL | .DIVEQUAL | .PLUSEQUAL | .MINUSEQUAL
  | .LSHIFTEQUAL | .RSHIFTEQUAL | .ANDEQUAL | .OREQUAL | .XOREQUAL => true
  | _ => false

/-- The seventeen binary-operator tokens of `p_expression_binop`. -/
def Token.isBinop : Token → Bool
  | .PLUS | .MINUS | .TIMES | .DIVIDE | .OR | .AND | .NOT | .XOR | .LOG_NOT
  | .LSHIFT | .RSHIFT | .LT | .GT | .LE | .GE | .EQ | .NE => true
  | _ => false

/-- Error surfaced when the parser requests a token past the produced stream:
the lexer's pending error if there is one, otherwise `p_error` is called with
`None` ("Syntax error at EOF"). -/
def pendingError : Option HexagonError → HexagonError
  | some e => e
  | none => .syntaxErrorAtEOF

/-- Parse one `expression`: a register, or `expression <binop> expression`
with the right operand maximal (PLY shifts on the conflict).  Returns the
builder, the unconsumed tokens and the name-generator counter. -/
def parse_expression (pend : Option HexagonError) :
    List Token → Nat →
    Except HexagonError (HexagonTranslationBuilder × List Token × Nat)
  | [], _ => .error (pendingError pend)
  | .REG name :: rest, n =>
    let r := p_register_reg name
    match rest with
    | [] =>
      (match pend with
       | some e => .error e
       | none => .ok (r, [], n))
    | tok :: rest2 =>
      if tok.isBinop then
        match parse_expression pend rest2 n with
        | .error e => .error e
        | .ok (rhs, rest3, n') =>
          match p_expression_binop tok r rhs n' with
          | .error e => .error e
          | .ok (tb, n2) => .ok (tb, rest3, n2)
      else .ok (r, tok :: rest2, n)
  | tok :: _, _ => .error (.syntaxErrorAt tok)

/-- Parse one simple `statement`: either `statement_assign` (register,
assignment operator, expression) or a bare expression.  Any other leading
token is a syntax error at that token, as in `p_error`. -/
def parse_statement (pend : Option HexagonError) (toks : List Token)
    (n : Nat) :
    Except HexagonError (HexagonTranslationBuilder × List Token × Nat) :=
  match toks with
  | [] => .error (pendingError pend)
  | .REG name :: rest =>
    let r := p_register_reg name
    match rest with
    | [] =>
      (match pend with
       | some e => .error e
       | none => .ok (r, [], n))
    | tok :: rest2 =>
      if tok.isAssignOp then
        match parse_expression pend rest2 n with
        | .error e => .error e
        | .ok (e, rest3, n') =>
          match p_statementassign r e with
          | .error err => .error err
          | .ok tb => .ok (tb, rest3, n')
      else if tok.isBinop then
        match parse_expression pend rest2 n with
        | .error e => .error e
        | .ok (rhs, rest3, n') =>
          match p_expression_binop tok r rhs n' with
          | .error e => .error e
          | .ok (tb, n2) => .ok (tb, rest3, n2)
      else .ok (r, tok :: rest2, n)
  | tok :: _ => .error (.syntaxErrorAt tok)

/-- Parse the rest of a statement list after one statement has been parsed
into `acc`: `statement : statement SEMI statement | statement SEMI`.
Instruction lists are joined with `extend_instructions`; the accumulated
value stays the first statement's value.  A non-semicolon after a complete
statement is a syntax error at that token.  `fuel` bounds the recursion;
every iteration consumes at least one token. -/
def parse_statement_list (pend : Option HexagonError) :
    Nat → HexagonTranslationBuilder → List Token → Nat →
    Except HexagonError (HexagonTranslationBuilder × Nat)
  | _, acc, [], n =>
    (match pend with
     | some e => .error e
     | none => .ok (acc, n))
  | fuel, acc, .SEMI :: rest, n =>
    (match rest with
     | [] =>
       (match pend with
        | some e => .error e
        | none => .ok (acc, n))
     | .SEMI :: _ =>
       (match fuel with
        | 0 => .error .outOfFuel
        | fuel' + 1 => parse_statement_list pend fuel' acc rest n)
     | _ =>
       (match fuel with
        | 0 => .error .outOfFuel
        | fuel' + 1 =>
          match parse_statement pend rest n with
          | .error e => .error e
          | .ok (s2, rest2, n2) =>
            parse_statement_list pend fuel' (acc.extend_instructions s2) rest2 n2))
  | _, _, tok :: _, _ => .error (.syntaxErrorAt tok)

/-- Parse a behavior string starting from name-generator counter `n`
(the generator is process-global in the source, so successive calls continue
counting); returns the final builder and counter. -/
def parseWith (input : String) (n : Nat) :
    Except HexagonError (HexagonTranslationBuilder × Nat) :=
  let cs := input.data
  let (toks, pend) := lexAll cs
  match parse_statement pend toks n with
  | .error e => .error e
  | .ok (s1, rest, n1) => parse_statement_list pend (toks.length + 1) s1 rest n1

/-- `Parser.parse`: parse a behavior string in a fresh process (name
generator at zero).  As in the source, the result of a successful parse is
the final `HexagonTranslationBuilder` object itself. -/
def parse (input : String) : Except HexagonError HexagonTranslationBuilder :=
  (parseWith input 0).map Prod.fst


/-! ## Width bookkeeping

Boolean predicates stating that every operand reachable from a value, an
instruction or a builder carries bit width 32. -/

mutual
def rvalueW32 : RValue → Bool
  | .operand op => op.size == 32
  | .builderVal instrs v => instrsW32 instrs && optW32 v
def optW32 : Option RValue → Bool
  | none => true
  | some v => rvalueW32 v
def instrW32 : ReilInstruction → Bool
  | .mk _ srcs dst => srcsW32 srcs && rvalueW32 dst
def srcsW32 : List RValue → Bool
  | [] => true
  | v :: vs => rvalueW32 v && srcsW32 vs
def instrsW32 : List ReilInstruction → Bool
  | [] => true
  | i :: is => instrW32 i && instrsW32 is
end

def tbW32 (tb : HexagonTranslationBuilder) : Bool :=
  instrsW32 tb.instructions && optW32 tb.value

theorem instrsW32_append (xs ys : List ReilInstruction) :
    instrsW32 (xs ++ ys) = (instrsW32 xs && instrsW32 ys) := by
  induction xs with
  | nil => simp [instrsW32]
  | cons i is ih => simp [instrsW32, ih, Bool.and_assoc]

theorem tbW32_extend {a b : HexagonTranslationBuilder}
    (ha : tbW32 a = true) (hb : tbW32 b = true) :
    tbW32 (a.extend_instructions b) = true := by
  simp only [tbW32, HexagonTranslationBuilder.extend_instructions, instrsW32_append,
    Bool.and_eq_true] at *
  tauto

theorem tbW32_add {tb : HexagonTranslationBuilder} {i : ReilInstruction}
    (h : tbW32 tb = true) (hi : instrW32 i = true) :
    tbW32 (tb.add i) = true := by
  simp only [tbW32, HexagonTranslationBuilder.add, instrsW32_append,
    Bool.and_eq_true] at *
  simp [instrsW32, hi, h.1, h.2]

theorem tbW32_set_value {tb : HexagonTranslationBuilder} {v : RValue}
    (h : instrsW32 tb.instructions = true) (hv : rvalueW32 v = true) :
    tbW32 (tb.set_value v) = true := by
  simp [tbW32, HexagonTranslationBuilder.set_value, optW32, h, hv]

theorem tbW32_get_value {tb : HexagonTranslationBuilder} {v : RValue}
    (h : tbW32 tb = true) (hv : tb.get_value = .ok v) :
    rvalueW32 v = true := by
  simp only [tbW32, Bool.and_eq_true] at h
  unfold HexagonTranslationBuilder.get_value at hv
  cases hval : tb.value with
  | none => simp [hval] at hv
  | some w =>
    simp [hval] at hv
    have := h.2
    rw [hval] at this
    simpa [optW32, hv] using this

theorem rvalueW32_toRValue {tb : HexagonTranslationBuilder}
    (h : tbW32 tb = true) : rvalueW32 tb.toRValue = true := by
  simp only [tbW32, Bool.and_eq_true] at h
  simp [HexagonTranslationBuilder.toRValue, rvalueW32, h.1, h.2]

theorem p_register_reg_w32 (name : String) : tbW32 (p_register_reg name) = true := by
  simp [p_register_reg, tbW32, HexagonTranslationBuilder.init,
    HexagonTranslationBuilder.set_value, instrsW32, optW32, rvalueW32,
    ReilOperand.size, hexagon_size]

theorem p_expression_binop_w32 {op : Token} {e1 e3 tb : HexagonTranslationBuilder}
    {n n' : Nat} (h1 : tbW32 e1 = true) (h3 : tbW32 e3 = true)
    (h : p_expression_binop op e1 e3 n = .ok (tb, n')) : tbW32 tb = true := by
  unfold p_expression_binop at h
  have hx : tbW32 (e1.extend_instructions e3) = true := tbW32_extend h1 h3
  simp only [temporal, ir_name_generator_get_next] at h
  cases hv1 : (e1.extend_instructions e3).get_value with
  | error e => simp [hv1] at h
  | ok v1 =>
    cases hv3 : e3.get_value with
    | error e => simp [hv1, hv3] at h
    | ok v3 =>
      simp only [hv1, hv3, Except.ok.injEq, Prod.mk.injEq] at h
      obtain ⟨rfl, rfl⟩ := h
      have w1 : rvalueW32 v1 = true := tbW32_get_value hx hv1
      have w3 : rvalueW32 v3 = true := tbW32_get_value h3 hv3
      have wd : rvalueW32 (.operand (.register ("t" ++ toString n) hexagon_size)) = true := by
        simp [rvalueW32, ReilOperand.size, hexagon_size]
      apply tbW32_set_value
      · have := tbW32_add hx (i := gen_add v1 v3 (.operand (.register ("t" ++ toString n) hexagon_size))) ?_
        · simp only [tbW32, Bool.and_eq_true] at this
          exact this.1
        · simp [gen_add, instrW32, srcsW32, w1, w3, wd]
      · exact wd

theorem p_statementassign_w32 {r e tb : HexagonTranslationBuilder}
    (hr : tbW32 r = true) (he : tbW32 e = true)
    (h : p_statementassign r e = .ok tb) : tbW32 tb = true := by
  unfold p_statementassign at h
  cases hev : e.get_value with
  | error err => simp [hev] at h
  | ok ev =>
    cases hrv : r.get_value with
    | error err => simp [hev, hrv] at h
    | ok rv =>
      simp only [hev, hrv, Except.ok.injEq] at h
      subst h
      have wev : rvalueW32 ev = true := tbW32_get_value he hev
      have wrv : rvalueW32 rv = true := tbW32_get_value hr hrv
      apply tbW32_set_value
      · have := tbW32_add he (i := gen_str ev rv) ?_
        · simp only [tbW32, Bool.and_eq_true] at this
          exact this.1
        · simp [gen_str, instrW32, srcsW32, wev, wrv]
      · exact rvalueW32_toRValue hr

theorem parse_expression_w32 (pend : Option HexagonError) (toks : List Token) (n : Nat) :
    ∀ tb rest n', parse_expression pend toks n = .ok (tb, rest, n') → tbW32 tb = true := by
  refine parse_expression.induct pend
    (fun toks n => ∀ tb rest n',
      parse_expression pend toks n = .ok (tb, rest, n') → tbW32 tb = true)
    ?_ ?_ ?_ ?_ ?_ ?_ ?_ ?_ toks n
  · intro n tb rest n' h
    simp [parse_expression] at h
  · intro name n e hpend tb rest n' h
    simp [parse_expression, hpend] at h
  · intro name n hpend tb rest n' h
    simp only [parse_expression, hpend] at h
    obtain ⟨rfl, rfl, rfl⟩ := h
    exact p_register_reg_w32 name
  · intro name n tok rest2 hbin e herr ih tb rest n' h
    simp [parse_expression, hbin, herr] at h
  · intro name n r tok rest2 hbin rhs rest3 n0 hok e herr ih tb rest n' h
    simp [parse_expression, hbin, hok, herr] at h
  · intro name n r tok rest2 hbin rhs rest3 n0 hok tb2 n2 hbo ih tb rest n' h
    simp only [parse_expression, hbin, if_pos, hok, hbo] at h
    obtain ⟨rfl, rfl, rfl⟩ := h
    exact p_expression_binop_w32 (p_register_reg_w32 name) (ih rhs rest3 n0 hok) hbo
  · intro name n tok rest2 hbin tb rest n' h
    simp only [parse_expression, hbin, if_neg, Bool.false_eq_true, ite_false] at h
    obtain ⟨rfl, rfl, rfl⟩ := h
    exact p_register_reg_w32 name
  · intro tok tail x hne tb rest n' h
    cases tok with
    | REG name => exact absurd rfl (hne name)
    | _ => simp [parse_expression] at h

theorem parse_statement_w32 (pend : Option HexagonError) (toks : List Token) (n : Nat) :
    ∀ tb rest n', parse_statement pend toks n = .ok (tb, rest, n') → tbW32 tb = true := by
  intro tb rest n' h
  unfold parse_statement at h
  split at h
  · simp at h
  · rename_i name rest1
    split at h
    · split at h
      · simp at h
      · simp only [Except.ok.injEq, Prod.mk.injEq] at h
        obtain ⟨rfl, -, -⟩ := h
        exact p_register_reg_w32 name
    · rename_i tok rest2
      split at h
      · split at h
        · simp at h
        · rename_i e1 res1 e0 rest3 n0 hpe
          dsimp only at h
          split at h
          · simp at h
          · rename_i tb0 hsa
            simp only [Except.ok.injEq, Prod.mk.injEq] at h
            obtain ⟨rfl, -, -⟩ := h
            exact p_statementassign_w32 (p_register_reg_w32 name)
              (parse_expression_w32 pend rest2 n e0 rest3 n0 hpe) hsa
      · split at h
        · split at h
          · simp at h
          · rename_i e1 res1 rhs rest3 n0 hpe
            dsimp only at h
            split at h
            · simp at h
            · rename_i tb0 n2 hbo
              simp only [Except.ok.injEq, Prod.mk.injEq] at h
              obtain ⟨rfl, -, -⟩ := h
              exact p_expression_binop_w32 (p_register_reg_w32 name)
                (parse_expression_w32 pend rest2 n rhs rest3 n0 hpe) hbo
        · simp only [Except.ok.injEq, Prod.mk.injEq] at h
          obtain ⟨rfl, -, -⟩ := h
          exact p_register_reg_w32 name
  · simp at h

theorem psl_cons_semi (pend : Option HexagonError) (fuel : Nat)
    (acc : HexagonTranslationBuilder) (tail : List Token) (n : Nat) :
    parse_statement_list pend (fuel + 1) acc (.SEMI :: .SEMI :: tail) n =
      parse_statement_list pend fuel acc (.SEMI :: tail) n := rfl

theorem psl_cons_stmt (pend : Option HexagonError) (fuel : Nat)
    (acc : HexagonTranslationBuilder) (t : Token) (ts : List Token) (n : Nat)
    (hne : t ≠ Token.SEMI) :
    parse_statement_list pend (fuel + 1) acc (.SEMI :: t :: ts) n =
      (match parse_statement pend (t :: ts) n with
       | .error e => .error e
       | .ok (s2, rest2, n2) =>
         parse_statement_list pend fuel (acc.extend_instructions s2) rest2 n2) := by
  cases t <;> first | exact absurd rfl hne | rfl

theorem parse_statement_list_w32 (pend : Option HexagonError)
    (fuel : Nat) (acc : HexagonTranslationBuilder) (toks : List Token) (n : Nat) :
    tbW32 acc = true → ∀ tb m,
      parse_statement_list pend fuel acc toks n = .ok (tb, m) → tbW32 tb = true := by
  refine parse_statement_list.induct pend
    (fun fuel acc toks n => tbW32 acc = true → ∀ tb m,
      parse_statement_list pend fuel acc toks n = .ok (tb, m) → tbW32 tb = true)
    ?_ ?_ ?_ ?_ ?_ ?_ ?_ ?_ ?_ ?_ fuel acc toks n
  · intro t acc n e hpend hacc tb m h
    simp [parse_statement_list, hpend] at h
  · intro t acc n hpend hacc tb m h
    simp only [parse_statement_list, hpend, Except.ok.injEq, Prod.mk.injEq] at h
    obtain ⟨rfl, -⟩ := h
    exact hacc
  · intro fuel acc n e hpend hacc tb m h
    simp [parse_statement_list, hpend] at h
  · intro fuel acc n hpend hacc tb m h
    simp only [parse_statement_list, hpend, Except.ok.injEq, Prod.mk.injEq] at h
    obtain ⟨rfl, -⟩ := h
    exact hacc
  · intro acc n tail hacc tb m h
    simp [parse_statement_list] at h
  · intro acc n tail fuel' ih hacc tb m h
    rw [psl_cons_semi] at h
    exact ih hacc tb m h
  · intro acc rest n h1 h2 hacc tb m h
    cases rest with
    | nil => exact absurd rfl h1
    | cons t ts =>
      cases t <;> first
      | exact absurd rfl (h2 ts)
      | simp [parse_statement_list] at h
  · intro acc rest n fuel' e hps h1 h2 hacc tb m h
    cases rest with
    | nil => exact absurd rfl h1
    | cons t ts =>
      have hne : t ≠ Token.SEMI := by
        intro hc
        exact h2 ts (by rw [hc])
      rw [psl_cons_stmt pend fuel' acc t ts n hne, hps] at h
      simp at h
  · intro acc rest n fuel' rhs rest3 n' hps h1 h2 ih hacc tb m h
    cases rest with
    | nil => exact absurd rfl h1
    | cons t ts =>
      have hne : t ≠ Token.SEMI := by
        intro hc
        exact h2 ts (by rw [hc])
      rw [psl_cons_stmt pend fuel' acc t ts n hne, hps] at h
      exact ih (tbW32_extend hacc
        (parse_statement_w32 pend (t :: ts) n rhs rest3 n' hps)) tb m h
  · intro t x tok tail x1 hne hacc tb m h
    cases tok <;> first
    | exact absurd rfl (fun hc => hne hc)
    | simp [parse_statement_list] at h

theorem parse_w32 (s : String) (tb : HexagonTranslationBuilder)
    (h : parse s = .ok tb) : tbW32 tb = true := by
  unfold parse at h
  cases hw : parseWith s 0 with
  | error e =>
    rw [hw] at h
    simp [Except.map] at h
  | ok p =>
    obtain ⟨tb0, m⟩ := p
    simp only [hw, Except.map, Except.ok.injEq] at h
    subst h
    unfold parseWith at hw
    cases hlex : lexAll s.data with
    | mk toks pend =>
      simp only [hlex] at hw
      cases hps : parse_statement pend toks 0 with
      | error e => simp [hps] at hw
      | ok r =>
        obtain ⟨s1, rest, n1⟩ := r
        simp only [hps] at hw
        exact parse_statement_list_w32 pend (toks.length + 1) s1 rest n1
          (parse_statement_w32 pend toks 0 s1 rest n1 hps) tb0 m hw

theorem parse_expression_imm (pend : Option HexagonError) (toks : List Token) (n : Nat) :
    ∀ tb rest n', parse_expression pend toks n = .ok (tb, rest, n') →
      ∀ v, Token.IMM v ∈ toks → Token.IMM v ∈ rest := by
  refine parse_expression.induct pend
    (fun toks n => ∀ tb rest n',
      parse_expression pend toks n = .ok (tb, rest, n') →
      ∀ v, Token.IMM v ∈ toks → Token.IMM v ∈ rest)
    ?_ ?_ ?_ ?_ ?_ ?_ ?_ ?_ toks n
  · intro n tb rest n' h
    simp [parse_expression] at h
  · intro name n e hpend tb rest n' h
    simp [parse_expression, hpend] at h
  · intro name n hpend tb rest n' h v hv
    simp at hv
  · intro name n tok rest2 hbin e herr ih tb rest n' h
    simp [parse_expression, hbin, herr] at h
  · intro name n r tok rest2 hbin rhs rest3 n0 hok e herr ih tb rest n' h
    simp [parse_expression, hbin, hok, herr] at h
  · intro name n r tok rest2 hbin rhs rest3 n0 hok tb2 n2 hbo ih tb rest n' h v hv
    simp only [parse_expression, hbin, if_pos, hok, hbo] at h
    obtain ⟨rfl, rfl, rfl⟩ := h
    rcases List.mem_cons.mp hv with heq | hv2
    · exact absurd heq.symm (by simp)
    · rcases List.mem_cons.mp hv2 with heq | hv3
      · rw [← heq] at hbin
        simp [Token.isBinop] at hbin
      · exact ih rhs rest3 n0 hok v hv3
  · intro name n tok rest2 hbin tb rest n' h v hv
    simp only [parse_expression, hbin, if_neg, Bool.false_eq_true, ite_false] at h
    obtain ⟨rfl, rfl, rfl⟩ := h
    rcases List.mem_cons.mp hv with heq | hv2
    · exact absurd heq.symm (by simp)
    · exact hv2
  · intro tok tail x hne tb rest n' h
    cases tok with
    | REG name => exact absurd rfl (hne name)
    | _ => simp [parse_expression] at h

theorem parse_statement_imm (pend : Option HexagonError) (toks : List Token) (n : Nat) :
    ∀ tb rest n', parse_statement pend toks n = .ok (tb, rest, n') →
      ∀ v, Token.IMM v ∈ toks → Token.IMM v ∈ rest := by
  intro tb rest n' h
  unfold parse_statement at h
  split at h
  · simp at h
  · rename_i name rest1
    split at h
    · split at h
      · simp at h
      · simp only [Except.ok.injEq, Prod.mk.injEq] at h
        obtain ⟨-, rfl, -⟩ := h
        intro v hv
        simp at hv
    · rename_i tok rest2
      split at h
      · split at h
        · simp at h
        · rename_i e1 res1 e0 rest3 n0 hpe
          dsimp only at h
          split at h
          · simp at h
          · rename_i tb0 hsa
            simp only [Except.ok.injEq, Prod.mk.injEq] at h
            obtain ⟨-, rfl, -⟩ := h
            intro v hv
            rcases List.mem_cons.mp hv with heq | hv2
            · exact absurd heq.symm (by simp)
            · rcases List.mem_cons.mp hv2 with heq | hv3
              · rw [← heq] at e1
                simp [Token.isAssignOp] at e1
              · exact parse_expression_imm pend rest2 n e0 rest3 n0 hpe v hv3
      · split at h
        · split at h
          · simp at h
          · rename_i e1 res1 rhs rest3 n0 hpe
            dsimp only at h
            split at h
            · simp at h
            · rename_i tb0 n2 hbo
              simp only [Except.ok.injEq, Prod.mk.injEq] at h
              obtain ⟨-, rfl, -⟩ := h
              intro v hv
              rcases List.mem_cons.mp hv with heq | hv2
              · exact absurd heq.symm (by simp)
              · rcases List.mem_cons.mp hv2 with heq | hv3
                · rw [← heq] at e1
                  simp [Token.isBinop] at e1
                · exact parse_expression_imm pend rest2 n rhs rest3 n0 hpe v hv3
        · simp only [Except.ok.injEq, Prod.mk.injEq] at h
          obtain ⟨-, rfl, -⟩ := h
          intro v hv
          rcases List.mem_cons.mp hv with heq | hv2
          · exact absurd heq.symm (by simp)
          · exact hv2
  · simp at h

theorem parse_statement_list_imm (pend : Option HexagonError)
    (fuel : Nat) (acc : HexagonTranslationBuilder) (toks : List Token) (n : Nat) :
    ∀ tb m, parse_statement_list pend fuel acc toks n = .ok (tb, m) →
      ∀ v, Token.IMM v ∉ toks := by
  refine parse_statement_list.induct pend
    (fun fuel acc toks n => ∀ tb m,
      parse_statement_list pend fuel acc toks n = .ok (tb, m) →
      ∀ v, Token.IMM v ∉ toks)
    ?_ ?_ ?_ ?_ ?_ ?_ ?_ ?_ ?_ ?_ fuel acc toks n
  · intro t acc n e hpend tb m h
    simp [parse_statement_list, hpend] at h
  · intro t acc n hpend tb m h v hv
    simp at hv
  · intro fuel acc n e hpend tb m h
    simp [parse_statement_list, hpend] at h
  · intro fuel acc n hpend tb m h v hv
    simp at hv
  · intro acc n tail tb m h
    simp [parse_statement_list] at h
  · intro acc n tail fuel' ih tb m h v hv
    rw [psl_cons_semi] at h
    have := ih tb m h v
    rcases List.mem_cons.mp hv with heq | hv2
    · simp at heq
    · exact this hv2
  · intro acc rest n h1 h2 tb m h
    cases rest with
    | nil => exact absurd rfl h1
    | cons t ts =>
      cases t <;> first
      | exact absurd rfl (h2 ts)
      | simp [parse_statement_list] at h
  · intro acc rest n fuel' e hps h1 h2 tb m h
    cases rest with
    | nil => exact absurd rfl h1
    | cons t ts =>
      have hne : t ≠ Token.SEMI := by
        intro hc
        exact h2 ts (by rw [hc])
      rw [psl_cons_stmt pend fuel' acc t ts n hne, hps] at h
      simp at h
  · intro acc rest n fuel' rhs rest3 n' hps h1 h2 ih tb m h v hv
    cases rest with
    | nil => exact absurd rfl h1
    | cons t ts =>
      have hne : t ≠ Token.SEMI := by
        intro hc
        exact h2 ts (by rw [hc])
      rw [psl_cons_stmt pend fuel' acc t ts n hne, hps] at h
      rcases List.mem_cons.mp hv with heq | hv2
      · simp at heq
      · exact ih tb m h v (parse_statement_imm pend (t :: ts) n rhs rest3 n' hps v hv2)
  · intro t x tok tail x1 hne tb m h
    cases tok <;> first
    | exact absurd rfl (fun hc => hne hc)
    | simp [parse_statement_list] at h

theorem parse_imm_rejected (s : String) (tb : HexagonTranslationBuilder)
    (h : parse s = .ok tb) : ∀ v, Token.IMM v ∉ (lexAll s.data).1 := by
  unfold parse at h
  cases hw : parseWith s 0 with
  | error e =>
    rw [hw] at h
    simp [Except.map] at h
  | ok p =>
    obtain ⟨tb0, m⟩ := p
    unfold parseWith at hw
    cases hlex : lexAll s.data with
    | mk toks pend =>
      simp only [hlex] at hw
      cases hps : parse_statement pend toks 0 with
      | error e => simp [hps] at hw
      | ok r =>
        obtain ⟨s1, rest, n1⟩ := r
        simp only [hps] at hw
        intro v hv
        exact parse_statement_list_imm pend (toks.length + 1) s1 rest n1 tb0 m hw v
          (parse_statement_imm pend toks 0 s1 rest n1 hps v hv)

/-! ## Claim theorems -/

/-- C1: for the input string `"Rd=Rs+Rt;"`, `parse` produces exactly two IR
instructions in this order — first the ADD instruction combining the register
operands `Rs` and `Rt` into the freshly allocated temporary `t0`, then the
STORE instruction moving `t0` into the register operand `Rd` — and the name
`t0` is distinct from every register name appearing in the input. -/
theorem parse_round_trip_shape :
    (parse "Rd=Rs+Rt;").map HexagonTranslationBuilder.get_instructions =
      .ok [gen_add (.operand (.register "Rs" hexagon_size))
             (.operand (.register "Rt" hexagon_size))
             (.operand (.register "t0" hexagon_size)),
           gen_str (.operand (.register "t0" hexagon_size))
             (.operand (.register "Rd" hexagon_size))]
    ∧ "t0" ≠ "Rd" ∧ "t0" ≠ "Rs" ∧ "t0" ≠ "Rt" :=
  ⟨rfl, by decide, by decide, by decide⟩

/-- C2: what a successful `parse` call actually returns.  For
`"Rd=Rs+Rt;"` the result is the whole `HexagonTranslationBuilder` accumulator
object — carrying both the instruction list and the leftover `_value` slot —
not the instruction list itself; the `__main__` driver must extract
`parsed._instructions` from it.  This contradicts the docstring of
`Parser.parse` ("Returns: List[ReilInstruction]"), as its own TODO notes. -/
theorem parse_returns_builder_object :
    parse "Rd=Rs+Rt;" =
      .ok { instructions :=
              [gen_add (.operand (.register "Rs" hexagon_size))
                 (.operand (.register "Rt" hexagon_size))
                 (.operand (.register "t0" hexagon_size)),
               gen_str (.operand (.register "t0" hexagon_size))
                 (.operand (.register "Rd" hexagon_size))],
            value := some (.builderVal []
              (some (.operand (.register "Rd" hexagon_size)))) } := rfl

/-- C3: the assignment action `p_statementassign` does emit exactly one STORE
moving the expression's current value into the register operand and appends
it to the expression's instruction list, but the resulting context's current
value is the left-hand register's whole `TranslationBuilder` object
(`set_value(p[1])`), not the `Register` operand the claim (and the `_value`
docstring, `Optional[ReilOperand]`) require; the concrete parse of
`"Rd=Rs+Rt;"` exhibits the stored builder snapshot. -/
theorem assign_action_value_is_builder :
    (∀ (r e : HexagonTranslationBuilder) (rv ev : RValue),
        r.value = some rv → e.value = some ev →
        p_statementassign r e =
          .ok ⟨e.instructions ++ [gen_str ev rv], some r.toRValue⟩)
    ∧ (parse "Rd=Rs+Rt;").map HexagonTranslationBuilder.value =
        .ok (some (.builderVal []
          (some (.operand (.register "Rd" hexagon_size))))) := by
  constructor
  · intro r e rv ev hr he
    simp [p_statementassign, HexagonTranslationBuilder.get_value, hr, he,
      HexagonTranslationBuilder.add, HexagonTranslationBuilder.set_value]
  · rfl

/-- Witness for the assignment-action characterization at a concrete input:
assigning the register expression `Rs` to the register `Rd`. -/
theorem assign_action_value_is_builder_witness :
    p_statementassign (p_register_reg "Rd") (p_register_reg "Rs") =
      .ok ⟨[gen_str (.operand (.register "Rs" hexagon_size))
              (.operand (.register "Rd" hexagon_size))],
           some (.builderVal [] (some (.operand (.register "Rd" hexagon_size))))⟩ :=
  assign_action_value_is_builder.1 (p_register_reg "Rd") (p_register_reg "Rs")
    (.operand (.register "Rd" hexagon_size))
    (.operand (.register "Rs" hexagon_size)) rfl rfl

/-- C4: the binary-operation action never consults the operator token: for
every pair of accepted binary-operator tokens, `p_expression_binop` produces
identical results on identical operands, the concrete parses of
`"Rd=Rs-Rt;"` and `"Rd=Rs&Rt;"` coincide completely, and the opcodes emitted
for `"Rd=Rs-Rt;"` are the ADD-class opcode followed by the STORE. -/
theorem binop_opcode_uniform :
    (∀ (op1 op2 : Token) (e1 e3 : HexagonTranslationBuilder) (n : Nat),
        op1.isBinop = true → op2.isBinop = true →
        p_expression_binop op1 e1 e3 n = p_expression_binop op2 e1 e3 n)
    ∧ parse "Rd=Rs-Rt;" = parse "Rd=Rs&Rt;"
    ∧ (parse "Rd=Rs-Rt;").map
        (fun tb => tb.get_instructions.map ReilInstruction.opcodeOf) =
        .ok [.add, .str] :=
  ⟨fun _ _ _ _ _ _ _ => rfl, rfl, rfl⟩

/-- Witness for operator collapse at concrete operators: subtraction and
bitwise-and between the register expressions `Rs` and `Rt` produce the same
builder and counter. -/
theorem binop_opcode_uniform_witness :
    p_expression_binop .MINUS (p_register_reg "Rs") (p_register_reg "Rt") 0 =
      p_expression_binop .AND (p_register_reg "Rs") (p_register_reg "Rt") 0 :=
  binop_opcode_uniform.1 .MINUS .AND (p_register_reg "Rs")
    (p_register_reg "Rt") 0 rfl rfl

/-- C5: every immediate literal is read as hexadecimal after stripping an
optional `0x` prefix: `"0x1F"` and `"1F"` lex to the same value 31, and the
bare literal `"10"` lexes to 16, not ten. -/
theorem imm_literals_hexadecimal :
    lexAll "0x1F".data = ([.IMM 31], none)
    ∧ lexAll "1F".data = ([.IMM 31], none)
    ∧ lexAll "10".data = ([.IMM 16], none) :=
  ⟨rfl, rfl, rfl⟩

/-- C6 (counterexample): the claim that some statement with a single
immediate-literal expression parses successfully fails at its own example:
`"Rd=1F;"` raises the `p_error` exception at the immediate token 31, because
no grammar production accepts an `IMM` token. -/
theorem imm_expression_rejected :
    parse "Rd=1F;" = .error (.syntaxErrorAt (.IMM 31)) := rfl

/-- C6 (amended): immediate literals are lexed but never accepted by the
grammar: a successful `parse` implies that the token stream of the input
contains no `IMM` token at all, so every statement whose expression is an
immediate literal fails with a syntax error. -/
theorem parse_accepts_no_imm_token (s : String) (tb : HexagonTranslationBuilder)
    (h : parse s = .ok tb) : ∀ v, Token.IMM v ∉ (lexAll s.data).1 :=
  parse_imm_rejected s tb h

/-- Witness for the amended C6: the successfully parsed `"R0=R1;"` contains
no immediate token (in particular not the value 31 that `"1F"` denotes). -/
theorem parse_accepts_no_imm_token_witness :
    Token.IMM 31 ∉ (lexAll "R0=R1;".data).1 :=
  parse_accepts_no_imm_token "R0=R1;"
    ⟨[gen_str (.operand (.register "R1" hexagon_size))
        (.operand (.register "R0" hexagon_size))],
     some (.builderVal [] (some (.operand (.register "R0" hexagon_size))))⟩
    rfl 31

/-- C7 (counterexample): in `"A=B;C=D;"` the single letters `A`, `B`, `C`,
`D` are hexadecimal digits, so `t_IMM` lexes each of them as an immediate
(`A` is 10) and the parse fails at the first token instead of returning two
STORE instructions. -/
theorem letters_lex_as_immediates :
    parse "A=B;C=D;" = .error (.syntaxErrorAt (.IMM 10)) := rfl

/-- C7 (amended): with operand names that lex as registers, statement order
is preserved: for `"R0=R1;R2=R3;"` the returned sequence contains the STORE
for the first assignment strictly before the STORE for the second. -/
theorem store_order_preserved :
    (parse "R0=R1;R2=R3;").map HexagonTranslationBuilder.get_instructions =
      .ok [gen_str (.operand (.register "R1" hexagon_size))
             (.operand (.register "R0" hexagon_size)),
           gen_str (.operand (.register "R3" hexagon_size))
             (.operand (.register "R2" hexagon_size))] := rfl

/-- C8 (counterexample): an input containing an illegal character need not
raise the lexer's error: for `";@"` the parser rejects the leading semicolon
before the on-demand lexer ever reaches `'@'`, so the raised error is a
syntax error at `;` and references no illegal character. -/
theorem syntax_error_preempts_lex_error :
    parse ";@" = .error (.syntaxErrorAt .SEMI) := rfl

/-- C8 (amended): when lexing does reach the offending character before any
syntax error, the first illegal character aborts the whole parse with the
`t_error` exception carrying that character and the remaining text, and no
instruction sequence is observable: for `"Rd=Rs@Rt;"` the lexer stops at
`'@'` and `parse` propagates exactly that error. -/
theorem illegal_character_aborts :
    lexAll "Rd=Rs@Rt;".data =
      ([.REG "Rd", .EQUALS, .REG "Rs"], some (.illegalCharacter '@' "@Rt;"))
    ∧ parse "Rd=Rs@Rt;" = .error (.illegalCharacter '@' "@Rt;") :=
  ⟨rfl, rfl⟩

/-- C9: a freshly constructed translation builder has `_value = None`, so
calling `get_value` before any `set_value` always fails with
`UnexpectedException` (the code's `UnsetValueError`) and never returns a
value. -/
theorem get_value_unset_fails :
    HexagonTranslationBuilder.init.get_value = .error .unexpectedException := rfl

/-- C10: every operand constructed by the translator carries bit width
exactly `hexagon_size = 32` — register operands built for `REG` tokens and
temporaries allocated for binary operations alike — so no instruction in the
result of any successful `parse` call contains an operand of a different
width. -/
theorem parse_emits_width32_only (s : String) (tb : HexagonTranslationBuilder)
    (h : parse s = .ok tb) : instrsW32 tb.get_instructions = true := by
  have hw := parse_w32 s tb h
  simp only [tbW32, Bool.and_eq_true] at hw
  exact hw.1

/-- Witness for the width invariant at the concrete parse of
`"Rd=Rs+Rt;"`. -/
theorem parse_emits_width32_only_witness :
    instrsW32 (HexagonTranslationBuilder.get_instructions
      ⟨[gen_add (.operand (.register "Rs" hexagon_size))
          (.operand (.register "Rt" hexagon_size))
          (.operand (.register "t0" hexagon_size)),
        gen_str (.operand (.register "t0" hexagon_size))
          (.operand (.register "Rd" hexagon_size))],
       some (.builderVal [] (some (.operand (.register "Rd" hexagon_size))))⟩) =
      true :=
  parse_emits_width32_only "Rd=Rs+Rt;"
    ⟨[gen_add (.operand (.register "Rs" hexagon_size))
        (.operand (.register "Rt" hexagon_size))
        (.operand (.register "t0" hexagon_size)),
      gen_str (.operand (.register "t0" hexagon_size))
        (.operand (.register "Rd" hexagon_size))],
     some (.builderVal [] (some (.operand (.register "Rd" hexagon_size))))⟩ rfl
